import Mathlib

/-!
Verification of the eco-dms authentication and profile-store core.

The definitions below are a shallow embedding of the Python backend:

* `backend/app/auth_routes.py` — challenge message rendering
  (`legacy_prepare` / `legacy_verify` / `siwe_prepare` / `siwe_verify`
  f-strings), `_parse_prepared_message`, `_verify_sig`, nonce handling
  over Redis, and JWT minting;
* `backend/app/swie_auth/siwe_store.py` — the in-memory `NonceStore`;
* `backend/app/services/user_service.py` — the IPFS-backed profile
  store and social graph operations;
* `backend/app/services/pinata_service.py` — best-effort pinning.

External collaborators (Redis, the content-addressed blob store, the
ECDSA recovery of `eth_account`, and the PyJWT library) are modelled
abstractly, following the collaborator contracts of the specification.
Strings are modelled as `List Char`; machine timestamps as `Nat`
(whole seconds, matching the `int(time.time())` truncation used by the
code); the ASCII character classes of Python's `re` patterns are
modelled as explicit character lists.
-/

/-! ### Character classes of the `re` patterns in `_parse_prepared_message` -/

/-- An inclusive range of characters, as written `x-y` inside a regex
character class. -/
def charRange (lo hi : Char) : List Char :=
  (List.range (hi.toNat + 1 - lo.toNat)).map (fun i => Char.ofNat (lo.toNat + i))

/-- The character class `[a-fA-F0-9]` of the address pattern. -/
def hexChars : List Char :=
  charRange 'a' 'f' ++ charRange 'A' 'F' ++ charRange '0' '9'

/-- The character class `[A-Za-z0-9]` of the nonce pattern. -/
def alnumChars : List Char :=
  charRange 'A' 'Z' ++ charRange 'a' 'z' ++ charRange '0' '9'

/-- The character class `\d` (ASCII digits). -/
def digitChars : List Char := charRange '0' '9'

/-- The character class `\s` (ASCII whitespace of Python `re`). -/
def spaceChars : List Char := [' ', '\t', '\n', '\r', '\x0b', '\x0c']

def isHexCh (c : Char) : Bool := decide (c ∈ hexChars)
def isAlnumCh (c : Char) : Bool := decide (c ∈ alnumChars)
def isDigitCh (c : Char) : Bool := decide (c ∈ digitChars)
def isSpaceCh (c : Char) : Bool := decide (c ∈ spaceChars)

/-- ASCII model of Python's `str.lower()` on a single character. -/
def lowerCh : Char → Char
  | 'A' => 'a' | 'B' => 'b' | 'C' => 'c' | 'D' => 'd' | 'E' => 'e'
  | 'F' => 'f' | 'G' => 'g' | 'H' => 'h' | 'I' => 'i' | 'J' => 'j'
  | 'K' => 'k' | 'L' => 'l' | 'M' => 'm' | 'N' => 'n' | 'O' => 'o'
  | 'P' => 'p' | 'Q' => 'q' | 'R' => 'r' | 'S' => 's' | 'T' => 't'
  | 'U' => 'u' | 'V' => 'v' | 'W' => 'w' | 'X' => 'x' | 'Y' => 'y'
  | 'Z' => 'z' | c => c

/-- Python's `str.lower()` on a whole string. -/
def lowerStr (s : List Char) : List Char := s.map lowerCh

/-! ### Decimal rendering of integers (Python f-string `{expires}`)

Implemented with fuel so that all functions reduce inside the kernel. -/

/-- Digit character of a value `< 10` (catch-all branch is unreachable
for the inputs produced by `natDigitsRev`). -/
def digitCh : Nat → Char
  | 0 => '0' | 1 => '1' | 2 => '2' | 3 => '3' | 4 => '4'
  | 5 => '5' | 6 => '6' | 7 => '7' | 8 => '8' | 9 => '9'
  | _ => '0'

/-- Numeric value of an ASCII digit character (Python `int` on digits). -/
def chDigitVal (c : Char) : Nat := c.toNat - 48

/-- Base-10 digits, least significant first, with explicit fuel. -/
def natDigitsRevFuel : Nat → Nat → List Nat
  | 0, _ => []
  | fuel + 1, n => if n = 0 then [] else (n % 10) :: natDigitsRevFuel fuel (n / 10)

def natDigitsRev (n : Nat) : List Nat := natDigitsRevFuel n n

/-- Value of a least-significant-first digit list. -/
def digitsVal : List Nat → Nat
  | [] => 0
  | d :: ds => d + 10 * digitsVal ds

/-- Decimal rendering of a natural number, as produced by Python's
f-string formatting of a non-negative `int`. -/
def natRepr (n : Nat) : List Char :=
  if n = 0 then ['0'] else ((natDigitsRev n).map digitCh).reverse

/-- Numeric value of a most-significant-first ASCII digit string,
as computed by Python's `int(...)` on the `\d+` capture. -/
def digitsToNat (l : List Char) : Nat := digitsVal (l.reverse.map chDigitVal)

/-! ### Basic lemmas about the digit machinery -/

theorem natDigitsRevFuel_val (fuel n : Nat) (h : n ≤ fuel) :
    digitsVal (natDigitsRevFuel fuel n) = n := by
  induction fuel generalizing n with
  | zero => interval_cases n; simp [natDigitsRevFuel, digitsVal]
  | succ fuel ih =>
    by_cases hn : n = 0
    · simp [natDigitsRevFuel, hn, digitsVal]
    · have hdiv : n / 10 ≤ fuel := by
        have h1 : n / 10 < n := Nat.div_lt_self (Nat.pos_of_ne_zero hn) (by norm_num)
        omega
      simp only [natDigitsRevFuel, hn, if_false, digitsVal, ih (n / 10) hdiv]
      omega

theorem natDigitsRev_val (n : Nat) : digitsVal (natDigitsRev n) = n :=
  natDigitsRevFuel_val n n le_rfl

theorem natDigitsRevFuel_lt (fuel n : Nat) : ∀ d ∈ natDigitsRevFuel fuel n, d < 10 := by
  induction fuel generalizing n with
  | zero => simp [natDigitsRevFuel]
  | succ fuel ih =>
    by_cases hn : n = 0
    · simp [natDigitsRevFuel, hn]
    · simp only [natDigitsRevFuel, hn, if_false, List.mem_cons]
      rintro d (rfl | hd)
      · omega
      · exact ih _ d hd

theorem chDigitVal_digitCh {d : Nat} (h : d < 10) : chDigitVal (digitCh d) = d := by
  interval_cases d <;> rfl

theorem digitCh_mem_digitChars {d : Nat} (h : d < 10) : digitCh d ∈ digitChars := by
  interval_cases d <;> decide

theorem digitsToNat_natRepr (n : Nat) : digitsToNat (natRepr n) = n := by
  by_cases hn : n = 0
  · subst hn; decide
  · simp only [natRepr, hn, if_false, digitsToNat, List.reverse_reverse,
      List.map_reverse, List.map_map]
    have : ∀ d ∈ natDigitsRev n, (chDigitVal ∘ digitCh) d = id d := by
      intro d hd
      exact chDigitVal_digitCh (natDigitsRevFuel_lt n n d hd)
    rw [List.map_congr_left this, List.map_id]
    exact natDigitsRev_val n

theorem natRepr_ne_nil (n : Nat) : natRepr n ≠ [] := by
  by_cases hn : n = 0
  · subst hn; decide
  · simp only [natRepr, hn, if_false]
    intro h
    have h0 : natDigitsRev n = [] := by
      cases hrev : (natDigitsRev n).map digitCh with
      | nil => exact List.map_eq_nil_iff.mp hrev
      | cons a l => simp [hrev] at h
    have := natDigitsRev_val n
    rw [h0] at this
    simp [digitsVal] at this
    exact hn this.symm

theorem natRepr_all_digits (n : Nat) : ∀ c ∈ natRepr n, c ∈ digitChars := by
  by_cases hn : n = 0
  · subst hn; decide
  · simp only [natRepr, hn, if_false, List.mem_reverse, List.mem_map]
    rintro c ⟨d, hd, rfl⟩
    exact digitCh_mem_digitChars (natDigitsRevFuel_lt n n d hd)

/-! ### The challenge message and `_parse_prepared_message`

`legacy_prepare`, `legacy_verify`, `siwe_prepare` and `siwe_verify` all
build the challenge with the same f-string
`f"Sign in to Eco-DMS:\nAddress: {address_lc}\nNonce: {nonce}\nExpires: {expires}"`.
`_parse_prepared_message` recovers the three fields with three independent
`re.search` calls.  `re.search` is modelled exactly for these three
patterns: the leftmost position at which the literal label matches is
found by scanning left to right; the following `\s*` is greedy (no
backtracking can help, since each continuation starts with a character
class disjoint from `\s`); the captures are the maximal runs of the
respective classes. -/

/-- The fixed message pieces (`hdrA` is `"Sign in to Eco-DMS:\n"`). -/
def hdrA : List Char :=
  ['S', 'i', 'g', 'n', ' ', 'i', 'n', ' ', 't', 'o', ' ',
   'E', 'c', 'o', '-', 'D', 'M', 'S', ':', '\n']

def addrLabel : List Char := ['A', 'd', 'd', 'r', 'e', 's', 's', ':']
def nonceLabel : List Char := ['N', 'o', 'n', 'c', 'e', ':']
def expLabel : List Char := ['E', 'x', 'p', 'i', 'r', 'e', 's', ':']

/-- Fidelity of the literal pieces to the Python source strings. -/
theorem hdrA_spec : hdrA = "Sign in to Eco-DMS:\n".toList := by decide

theorem labels_spec :
    addrLabel = "Address:".toList ∧ nonceLabel = "Nonce:".toList ∧
      expLabel = "Expires:".toList := by decide

/-- The f-string
`f"Sign in to Eco-DMS:\nAddress: {address.lower()}\nNonce: {nonce}\nExpires: {expires}"`. -/
def render_message (address nonce : List Char) (expires : Nat) : List Char :=
  hdrA ++ (addrLabel ++ [' ']) ++ lowerStr address ++
    ('\n' :: (nonceLabel ++ [' '])) ++ nonce ++
    ('\n' :: (expLabel ++ [' '])) ++ natRepr expires

/-- Matching a literal regex piece at the current position: returns the
remainder of the input on success (`re` has no choice points inside a
literal). -/
def stripLabel : List Char → List Char → Option (List Char)
  | [], s => some s
  | _ :: _, [] => none
  | l :: ls, c :: cs => if l = c then stripLabel ls cs else none

/-- Attempt of `Address:\s*(0x[a-fA-F0-9]{40})` at the current position;
returns `group(1)`. -/
def matchAddrAt (s : List Char) : Option (List Char) :=
  match stripLabel addrLabel s with
  | none => none
  | some r0 =>
    match stripLabel ['0', 'x'] (r0.dropWhile isSpaceCh) with
    | none => none
    | some t =>
      let hx := t.take 40
      if hx.length = 40 ∧ hx.all isHexCh then some ('0' :: 'x' :: hx) else none

/-- Attempt of `Nonce:\s*([A-Za-z0-9]+)` at the current position. -/
def matchNonceAt (s : List Char) : Option (List Char) :=
  match stripLabel nonceLabel s with
  | none => none
  | some r0 =>
    let t := (r0.dropWhile isSpaceCh).takeWhile isAlnumCh
    if t = [] then none else some t

/-- Attempt of `Expires:\s*(\d+)` at the current position. -/
def matchExpAt (s : List Char) : Option (List Char) :=
  match stripLabel expLabel s with
  | none => none
  | some r0 =>
    let t := (r0.dropWhile isSpaceCh).takeWhile isDigitCh
    if t = [] then none else some t

/-- `re.search`: try the matcher at each position, leftmost first. -/
def searchWith (m : List Char → Option (List Char)) : List Char → Option (List Char)
  | [] => none
  | c :: cs =>
    match m (c :: cs) with
    | some r => some r
    | none => searchWith m cs

/-- `_parse_prepared_message`: the three fields are searched for
independently; the address capture is lowercased, the expiry capture is
converted with `int`. -/
def parse_prepared_message (message : List Char) :
    Option (List Char) × Option (List Char) × Option Nat :=
  ((searchWith matchAddrAt message).map lowerStr,
   searchWith matchNonceAt message,
   (searchWith matchExpAt message).map digitsToNat)

/-! ### Decidable facts about the character classes -/

theorem hex_lower_mem : ∀ c ∈ hexChars, lowerCh c ∈ hexChars := by decide

theorem hex_lower_ne : ∀ c ∈ hexChars,
    lowerCh c ≠ 'A' ∧ lowerCh c ≠ 'N' ∧ lowerCh c ≠ 'E' := by decide

theorem hex_lower_idem : ∀ c ∈ hexChars, lowerCh (lowerCh c) = lowerCh c := by decide

theorem alnum_not_space : ∀ c ∈ alnumChars, isSpaceCh c = false := by decide

theorem digit_not_space : ∀ c ∈ digitChars, isSpaceCh c = false := by decide

theorem digit_is_digit : ∀ c ∈ digitChars, isDigitCh c = true := by decide

/-! ### Lemmas about `stripLabel` and `searchWith` -/

theorem stripLabel_append (l m : List Char) : stripLabel l (l ++ m) = some m := by
  induction l with
  | nil => rfl
  | cons a l ih => simp [stripLabel, ih]

theorem stripLabel_mem {l s r : List Char} (h : stripLabel l s = some r) :
    ∀ c ∈ l, c ∈ s := by
  induction l generalizing s with
  | nil => simp
  | cons a l ih =>
    cases s with
    | nil => simp [stripLabel] at h
    | cons b s =>
      simp only [stripLabel] at h
      by_cases hab : a = b
      · subst hab
        simp only [if_pos rfl] at h
        intro c hc
        rcases List.mem_cons.mp hc with rfl | hc
        · exact List.mem_cons_self _ _
        · exact List.mem_cons_of_mem _ (ih h c hc)
      · simp [hab] at h

/-- A label that contains `:` but no newline cannot match starting inside
a run of alphanumeric characters that is terminated by a newline. -/
theorem stripLabel_alnum_newline (π σ τ : List Char)
    (h1 : ':' ∈ π) (h2 : '\n' ∉ π) (h3 : ∀ c ∈ σ, c ∈ alnumChars) :
    stripLabel π (σ ++ '\n' :: τ) = none := by
  induction σ generalizing π with
  | nil =>
    cases π with
    | nil => simp at h1
    | cons p ps =>
      have hp : p ≠ '\n' := fun hpeq => h2 (hpeq ▸ List.mem_cons_self _ _)
      simp [stripLabel, hp]
  | cons a σ ih =>
    cases π with
    | nil => simp at h1
    | cons p ps =>
      simp only [List.cons_append, stripLabel]
      by_cases hpa : p = a
      · subst hpa
        have hpal : p ∈ alnumChars := h3 p (List.mem_cons_self _ _)
        have hpcolon : p ≠ ':' := by
          intro hrfl
          rw [hrfl] at hpal
          exact absurd hpal (by decide)
        have h1' : ':' ∈ ps := by
          rcases List.mem_cons.mp h1 with hcol | hcol
          · exact absurd hcol.symm hpcolon
          · exact hcol
        have h2' : '\n' ∉ ps := fun hmem => h2 (List.mem_cons_of_mem _ hmem)
        have h3' : ∀ c ∈ σ, c ∈ alnumChars := fun c hc => h3 c (List.mem_cons_of_mem _ hc)
        simp [ih ps h1' h2' h3']
      · simp [hpa]

theorem searchWith_cons_some {m : List Char → Option (List Char)} {c cs r}
    (h : m (c :: cs) = some r) : searchWith m (c :: cs) = some r := by
  simp [searchWith, h]

theorem searchWith_cons_none {m : List Char → Option (List Char)} {c cs}
    (h : m (c :: cs) = none) : searchWith m (c :: cs) = searchWith m cs := by
  simp [searchWith, h]

theorem searchWith_append_skip {m : List Char → Option (List Char)} {p : List Char}
    (h : ∀ c ∈ p, ∀ cs, m (c :: cs) = none) (r : List Char) :
    searchWith m (p ++ r) = searchWith m r := by
  induction p with
  | nil => rfl
  | cons a p ih =>
    rw [List.cons_append,
      searchWith_cons_none (h a (List.mem_cons_self _ _) (p ++ r))]
    exact ih (fun c hc cs => h c (List.mem_cons_of_mem _ hc) cs)

theorem searchWith_some_mem {m : List Char → Option (List Char)}
    (hm : ∀ s r, m s = some r → ':' ∈ s) :
    ∀ {s r}, searchWith m s = some r → ':' ∈ s := by
  intro s
  induction s with
  | nil => intro r h; simp [searchWith] at h
  | cons c cs ih =>
    intro r h
    cases hmc : m (c :: cs) with
    | some v => exact hm _ _ hmc
    | none =>
      rw [searchWith_cons_none hmc] at h
      exact List.mem_cons_of_mem _ (ih h)

/-! ### Head-failure lemmas for the three matchers -/

theorem matchAddrAt_ne {c : Char} (h : c ≠ 'A') (cs : List Char) :
    matchAddrAt (c :: cs) = none := by
  have hne : ('A' : Char) ≠ c := fun h' => h h'.symm
  have hs : stripLabel addrLabel (c :: cs) = none := by
    simp only [addrLabel, stripLabel, if_neg hne]
  simp [matchAddrAt, hs]

theorem matchNonceAt_ne {c : Char} (h : c ≠ 'N') (cs : List Char) :
    matchNonceAt (c :: cs) = none := by
  have hne : ('N' : Char) ≠ c := fun h' => h h'.symm
  have hs : stripLabel nonceLabel (c :: cs) = none := by
    simp only [nonceLabel, stripLabel, if_neg hne]
  simp [matchNonceAt, hs]

theorem matchExpAt_ne {c : Char} (h : c ≠ 'E') (cs : List Char) :
    matchExpAt (c :: cs) = none := by
  have hne : ('E' : Char) ≠ c := fun h' => h h'.symm
  have hs : stripLabel expLabel (c :: cs) = none := by
    simp only [expLabel, stripLabel, if_neg hne]
  simp [matchExpAt, hs]

theorem matchExpAt_Ec (cs : List Char) : matchExpAt ('E' :: 'c' :: cs) = none := by
  simp [matchExpAt, expLabel, stripLabel]

/-- `Expires:` cannot match starting inside the alphanumeric nonce run. -/
theorem matchExpAt_alnum_newline {σ τ : List Char} (h : ∀ c ∈ σ, c ∈ alnumChars) :
    matchExpAt (σ ++ '\n' :: τ) = none := by
  have : stripLabel expLabel (σ ++ '\n' :: τ) = none :=
    stripLabel_alnum_newline _ _ _ (by decide) (by decide) h
  simp [matchExpAt, this]

theorem searchWith_exp_alnum_skip {σ τ : List Char} (h : ∀ c ∈ σ, c ∈ alnumChars) :
    searchWith matchExpAt (σ ++ '\n' :: τ) = searchWith matchExpAt ('\n' :: τ) := by
  induction σ with
  | nil => rfl
  | cons a σ ih =>
    have hnone : matchExpAt (a :: (σ ++ '\n' :: τ)) = none := by
      rw [← List.cons_append]
      exact matchExpAt_alnum_newline h
    rw [List.cons_append, searchWith_cons_none hnone]
    exact ih (fun c hc => h c (List.mem_cons_of_mem _ hc))

/-! ### takeWhile / dropWhile helpers -/

theorem takeWhile_append_of_all {p : Char → Bool} {l : List Char} (m : List Char)
    (h : ∀ c ∈ l, p c = true) :
    (l ++ m).takeWhile p = l ++ m.takeWhile p := by
  induction l with
  | nil => rfl
  | cons a l ih =>
    rw [List.cons_append, List.takeWhile_cons_of_pos (h a (List.mem_cons_self _ _)),
      ih (fun c hc => h c (List.mem_cons_of_mem _ hc)), List.cons_append]

theorem takeWhile_eq_self_of_all {p : Char → Bool} {l : List Char}
    (h : ∀ c ∈ l, p c = true) : l.takeWhile p = l := by
  have := takeWhile_append_of_all (p := p) (l := l) [] h
  simpa using this

/-! ### Success of the three matchers at the position of their label -/

theorem matchAddrAt_hit {lh rest : List Char} (hlen : lh.length = 40)
    (hhex : ∀ c ∈ lh, isHexCh c = true) :
    matchAddrAt ('A' :: 'd' :: 'd' :: 'r' :: 'e' :: 's' :: 's' :: ':' ::
        ' ' :: '0' :: 'x' :: (lh ++ rest)) = some ('0' :: 'x' :: lh) := by
  have h1 : stripLabel addrLabel ('A' :: 'd' :: 'd' :: 'r' :: 'e' :: 's' :: 's' :: ':' ::
      (' ' :: '0' :: 'x' :: (lh ++ rest))) = some (' ' :: '0' :: 'x' :: (lh ++ rest)) :=
    stripLabel_append addrLabel _
  have h2 : (' ' :: '0' :: 'x' :: (lh ++ rest)).dropWhile isSpaceCh
      = '0' :: 'x' :: (lh ++ rest) := by
    rw [List.dropWhile_cons_of_pos (by decide), List.dropWhile_cons_of_neg (by decide)]
  have h3 : stripLabel ['0', 'x'] ('0' :: 'x' :: (lh ++ rest)) = some (lh ++ rest) :=
    stripLabel_append ['0', 'x'] _
  have h4 : (lh ++ rest).take 40 = lh := by
    rw [← hlen]
    exact List.take_left lh rest
  simp only [matchAddrAt, h1, h2, h3, h4]
  rw [if_pos ⟨hlen, List.all_eq_true.mpr hhex⟩]

theorem matchNonceAt_hit {nonce rest : List Char} (hn0 : nonce ≠ [])
    (hna : ∀ c ∈ nonce, c ∈ alnumChars) :
    matchNonceAt ('N' :: 'o' :: 'n' :: 'c' :: 'e' :: ':' ::
        ' ' :: (nonce ++ '\n' :: rest)) = some nonce := by
  have h1 : stripLabel nonceLabel ('N' :: 'o' :: 'n' :: 'c' :: 'e' :: ':' ::
      (' ' :: (nonce ++ '\n' :: rest))) = some (' ' :: (nonce ++ '\n' :: rest)) :=
    stripLabel_append nonceLabel _
  obtain ⟨c0, cs0, rfl⟩ := List.exists_cons_of_ne_nil hn0
  have hc0 : isSpaceCh c0 = false := alnum_not_space c0 (hna c0 (List.mem_cons_self _ _))
  have h2 : (' ' :: ((c0 :: cs0) ++ '\n' :: rest)).dropWhile isSpaceCh
      = (c0 :: cs0) ++ '\n' :: rest := by
    rw [List.dropWhile_cons_of_pos (by decide), List.cons_append,
      List.dropWhile_cons_of_neg (by simp [hc0])]
  have h3 : ((c0 :: cs0) ++ '\n' :: rest).takeWhile isAlnumCh = c0 :: cs0 := by
    rw [takeWhile_append_of_all _ (fun c hc => by simp [isAlnumCh, hna c hc]),
      List.takeWhile_cons_of_neg (by decide)]
    simp
  simp only [matchNonceAt, h1, h2, h3]
  simp

theorem matchExpAt_hit (e : Nat) :
    matchExpAt ('E' :: 'x' :: 'p' :: 'i' :: 'r' :: 'e' :: 's' :: ':' ::
        ' ' :: natRepr e) = some (natRepr e) := by
  have h1 : stripLabel expLabel ('E' :: 'x' :: 'p' :: 'i' :: 'r' :: 'e' :: 's' :: ':' ::
      (' ' :: natRepr e)) = some (' ' :: natRepr e) :=
    stripLabel_append expLabel _
  obtain ⟨c0, cs0, hrepr⟩ := List.exists_cons_of_ne_nil (natRepr_ne_nil e)
  have hc0 : isSpaceCh c0 = false := by
    apply digit_not_space
    apply natRepr_all_digits e
    rw [hrepr]
    exact List.mem_cons_self _ _
  have h2 : (' ' :: natRepr e).dropWhile isSpaceCh = natRepr e := by
    rw [List.dropWhile_cons_of_pos (by decide), hrepr,
      List.dropWhile_cons_of_neg (by simp [hc0])]
  have h3 : (natRepr e).takeWhile isDigitCh = natRepr e :=
    takeWhile_eq_self_of_all
      (fun c hc => by simp [isDigitCh, natRepr_all_digits e c hc])
  simp only [matchExpAt, h1, h2, h3]
  simp [natRepr_ne_nil e]

/-! ### `re.search` on a rendered message -/

theorem hdrA_no_A : ∀ c ∈ hdrA, c ≠ 'A' := by decide

theorem hdrA_no_N : ∀ c ∈ hdrA, c ≠ 'N' := by decide

theorem lowerStr_0x (h : List Char) :
    lowerStr ('0' :: 'x' :: h) = '0' :: 'x' :: lowerStr h := by
  simp only [lowerStr, List.map_cons]
  rfl

theorem lowerStr_hex_len {h : List Char} (hlen : h.length = 40) :
    (lowerStr h).length = 40 := by
  simp [lowerStr, hlen]

theorem lowerStr_hex_all {h : List Char} (hhex : ∀ c ∈ h, c ∈ hexChars) :
    ∀ c ∈ lowerStr h, isHexCh c = true := by
  intro c hc
  simp only [lowerStr, List.mem_map] at hc
  obtain ⟨c0, hc0, rfl⟩ := hc
  simp [isHexCh, hex_lower_mem c0 (hhex c0 hc0)]

theorem lowerStr_hex_ne {h : List Char} (hhex : ∀ c ∈ h, c ∈ hexChars) :
    ∀ c ∈ '0' :: 'x' :: lowerStr h, c ≠ 'A' ∧ c ≠ 'N' ∧ c ≠ 'E' := by
  intro c hc
  rcases List.mem_cons.mp hc with rfl | hc
  · exact ⟨by decide, by decide, by decide⟩
  rcases List.mem_cons.mp hc with rfl | hc
  · exact ⟨by decide, by decide, by decide⟩
  simp only [lowerStr, List.mem_map] at hc
  obtain ⟨c0, hc0, rfl⟩ := hc
  exact hex_lower_ne c0 (hhex c0 hc0)

theorem search_addr_render (h nonce : List Char) (e : Nat)
    (hlen : h.length = 40) (hhex : ∀ c ∈ h, c ∈ hexChars) :
    searchWith matchAddrAt (render_message ('0' :: 'x' :: h) nonce e)
      = some ('0' :: 'x' :: lowerStr h) := by
  rw [render_message, lowerStr_0x]
  simp only [List.append_assoc, List.cons_append, List.singleton_append, List.nil_append]
  rw [searchWith_append_skip (fun c hc cs => matchAddrAt_ne (hdrA_no_A c hc) cs)]
  simp only [addrLabel, List.cons_append]
  exact searchWith_cons_some (matchAddrAt_hit (lowerStr_hex_len hlen) (lowerStr_hex_all hhex))

theorem search_nonce_render (h nonce : List Char) (e : Nat)
    (hhex : ∀ c ∈ h, c ∈ hexChars) (hn0 : nonce ≠ [])
    (hna : ∀ c ∈ nonce, c ∈ alnumChars) :
    searchWith matchNonceAt (render_message ('0' :: 'x' :: h) nonce e) = some nonce := by
  rw [render_message, lowerStr_0x]
  simp only [List.append_assoc, List.cons_append, List.singleton_append, List.nil_append]
  rw [searchWith_append_skip (fun c hc cs => matchNonceAt_ne (hdrA_no_N c hc) cs)]
  rw [searchWith_append_skip (p := addrLabel)
    (fun c hc cs => matchNonceAt_ne (by revert c hc; decide) cs)]
  rw [searchWith_cons_none (matchNonceAt_ne (by decide) _),
    searchWith_cons_none (matchNonceAt_ne (by decide) _),
    searchWith_cons_none (matchNonceAt_ne (by decide) _)]
  rw [searchWith_append_skip (p := lowerStr h)
    (fun c hc cs => matchNonceAt_ne ((lowerStr_hex_ne hhex c (by
      exact List.mem_cons_of_mem _ (List.mem_cons_of_mem _ hc))).2.1) cs)]
  rw [searchWith_cons_none (matchNonceAt_ne (by decide) _)]
  simp only [nonceLabel, List.cons_append]
  exact searchWith_cons_some (matchNonceAt_hit hn0 hna)

theorem search_exp_render (h nonce : List Char) (e : Nat)
    (hhex : ∀ c ∈ h, c ∈ hexChars) (hna : ∀ c ∈ nonce, c ∈ alnumChars) :
    searchWith matchExpAt (render_message ('0' :: 'x' :: h) nonce e)
      = some (natRepr e) := by
  rw [render_message, lowerStr_0x]
  rw [show hdrA = ['S', 'i', 'g', 'n', ' ', 'i', 'n', ' ', 't', 'o', ' '] ++
    'E' :: ['c', 'o', '-', 'D', 'M', 'S', ':', '\n'] from by decide]
  simp only [List.append_assoc, List.cons_append, List.singleton_append, List.nil_append]
  rw [searchWith_cons_none (matchExpAt_ne (by decide) _),
    searchWith_cons_none (matchExpAt_ne (by decide) _),
    searchWith_cons_none (matchExpAt_ne (by decide) _),
    searchWith_cons_none (matchExpAt_ne (by decide) _),
    searchWith_cons_none (matchExpAt_ne (by decide) _),
    searchWith_cons_none (matchExpAt_ne (by decide) _),
    searchWith_cons_none (matchExpAt_ne (by decide) _),
    searchWith_cons_none (matchExpAt_ne (by decide) _),
    searchWith_cons_none (matchExpAt_ne (by decide) _),
    searchWith_cons_none (matchExpAt_ne (by decide) _),
    searchWith_cons_none (matchExpAt_ne (by decide) _)]
  rw [searchWith_cons_none (matchExpAt_Ec _)]
  rw [searchWith_cons_none (matchExpAt_ne (by decide) _),
    searchWith_cons_none (matchExpAt_ne (by decide) _),
    searchWith_cons_none (matchExpAt_ne (by decide) _),
    searchWith_cons_none (matchExpAt_ne (by decide) _),
    searchWith_cons_none (matchExpAt_ne (by decide) _),
    searchWith_cons_none (matchExpAt_ne (by decide) _),
    searchWith_cons_none (matchExpAt_ne (by decide) _),
    searchWith_cons_none (matchExpAt_ne (by decide) _)]
  rw [searchWith_append_skip (p := addrLabel)
    (fun c hc cs => matchExpAt_ne (by revert c hc; decide) cs)]
  rw [searchWith_cons_none (matchExpAt_ne (by decide) _),
    searchWith_cons_none (matchExpAt_ne (by decide) _),
    searchWith_cons_none (matchExpAt_ne (by decide) _)]
  rw [searchWith_append_skip (p := lowerStr h)
    (fun c hc cs => matchExpAt_ne ((lowerStr_hex_ne hhex c (by
      exact List.mem_cons_of_mem _ (List.mem_cons_of_mem _ hc))).2.2) cs)]
  rw [searchWith_cons_none (matchExpAt_ne (by decide) _)]
  rw [searchWith_append_skip (p := nonceLabel)
    (fun c hc cs => matchExpAt_ne (by revert c hc; decide) cs)]
  rw [searchWith_cons_none (matchExpAt_ne (by decide) _)]
  rw [searchWith_exp_alnum_skip hna,
    searchWith_cons_none (matchExpAt_ne (by decide) _)]
  simp only [expLabel, List.cons_append]
  exact searchWith_cons_some (matchExpAt_hit e)

/-- Round-trip of the message composer: parsing a rendered challenge
recovers the lowercased address, the nonce, and the expiry. -/
theorem parse_render_eq (h nonce : List Char) (e : Nat)
    (hlen : h.length = 40) (hhex : ∀ c ∈ h, c ∈ hexChars)
    (hn0 : nonce ≠ []) (hna : ∀ c ∈ nonce, c ∈ alnumChars) :
    parse_prepared_message (render_message ('0' :: 'x' :: h) nonce e)
      = (some (lowerStr ('0' :: 'x' :: h)), some nonce, some e) := by
  unfold parse_prepared_message
  rw [search_addr_render h nonce e hlen hhex,
    search_nonce_render h nonce e hhex hn0 hna,
    search_exp_render h nonce e hhex hna]
  simp only [Option.map_some']
  rw [digitsToNat_natRepr]
  have heq : lowerStr ('0' :: 'x' :: lowerStr h) = lowerStr ('0' :: 'x' :: h) := by
    rw [lowerStr_0x, lowerStr_0x]
    simp only [lowerStr, List.map_map]
    have hcong : List.map (lowerCh ∘ lowerCh) h = List.map lowerCh h :=
      List.map_congr_left (fun c hc => hex_lower_idem c (hhex c hc))
    rw [hcong]
  rw [heq]

/-! ### Configuration constants (`backend/app/config.py` defaults) -/

def NONCE_TTL : Nat := 300

def SESSION_TTL : Nat := 3600

def JWT_SECRET_KEY : String := "dev-secret-key-change-in-production-12345"

/-! ### Redis-backed nonce store of `auth_routes.py`

`legacy_get_nonce` / `siwe_nonce` execute
`redis_service.set_str(f"siwe:nonce:{nonce}", "1", ex=NONCE_TTL)`; the key
therefore carries an absolute expiry time.  The store is modelled as a map
from the nonce string to that absolute expiry; `get_str` returns the value
only while the key has not yet expired, and `delete` removes the key. -/

def NonceMap : Type := List Char → Option Nat

/-- `redis_service.get_str(_nonce_key(nonce))` truthiness at time `now`. -/
def nonceLive (st : NonceMap) (nonce : List Char) (now : Nat) : Bool :=
  match st nonce with
  | some expiry => decide (now < expiry)
  | none => false

/-- `redis_service.delete(_nonce_key(nonce))`. -/
def deleteNonce (nonce : List Char) (st : NonceMap) : NonceMap :=
  fun k => if k = nonce then none else st k

/-! ### Token issuer

Modelled from the spec: the payload construction
`{"sub": address_lc, "exp": int(time.time()) + SESSION_TTL, "iat": int(time.time())}`
is taken from `legacy_verify` / `siwe_verify`; the signing and validation
performed by the external PyJWT library (`jwt.encode` / `jwt.decode` with
`JWT_SECRET_KEY`, HS256) are not part of the repository and are modelled
as a perfect MAC: a token records its payload together with the key it was
signed with, and validation succeeds only for the server key and, per the
spec's Token Issuer contract, only strictly before `exp`. -/

structure JwtToken where
  sub : List Char
  iat : Nat
  exp : Nat
  key : String
deriving DecidableEq

inductive TokenResult where
  | ok (sub : List Char)
  | expired
  | invalid
deriving DecidableEq

/-- `jwt.encode(payload, settings.JWT_SECRET_KEY, algorithm="HS256")`. -/
def mintToken (sub : List Char) (now : Nat) : JwtToken :=
  { sub := sub, iat := now, exp := now + SESSION_TTL, key := JWT_SECRET_KEY }

/-- Modelled from the spec: `jwt.decode(token, settings.JWT_SECRET_KEY, ...)`
(external library): signature check, then expiry check. -/
def validateToken (t : JwtToken) (now : Nat) : TokenResult :=
  if t.key = JWT_SECRET_KEY then
    (if t.exp ≤ now then TokenResult.expired else TokenResult.ok t.sub)
  else TokenResult.invalid

/-! ### Signature verifier and the two verify endpoints

Modelled from the spec: `Account.recover_message` of `eth_account` is an
external collaborator; it is abstracted as a function
`recover : message → signature → Option address` (`none` models the
exception path of `_verify_sig`).  Signatures are opaque (`Nat`).
The rate limiter (`_rl`) and the `profile_cid` lookup of the responses are
elided: the modelled runs are below the rate limit, and no claim concerns
the returned `profile_cid`. -/

def Recover : Type := List Char → Nat → Option (List Char)

/-- `_verify_sig(address, message, signature)`. -/
def verify_sig (recover : Recover) (address message : List Char) (sig : Nat) : Bool :=
  match recover message sig with
  | some recovered => decide (lowerStr recovered = lowerStr address)
  | none => false

inductive AuthOutcome where
  | ok (address : List Char) (token : JwtToken)
  | err (status : Nat)
deriving DecidableEq

/-- Shared tail of `legacy_verify` and `siwe_verify`: nonce check (400),
signature check (401), nonce consumption, token minting. -/
def verifyTail (recover : Recover) (addressLc message nonce : List Char)
    (sig now : Nat) (st : NonceMap) : AuthOutcome × NonceMap :=
  if nonceLive st nonce now then
    (if verify_sig recover addressLc message sig then
      (AuthOutcome.ok addressLc (mintToken addressLc now), deleteNonce nonce st)
    else (AuthOutcome.err 401, st))
  else (AuthOutcome.err 400, st)

/-- `legacy_prepare` / `siwe_prepare`: 400 if the nonce key is gone,
otherwise the message rendered with `expires = int(time.time()) + NONCE_TTL`
evaluated at prepare time. -/
def legacy_prepare (address nonce : List Char) (now : Nat) (st : NonceMap) :
    Option (List Char) :=
  if nonceLive st nonce now then some (render_message address nonce (now + NONCE_TTL))
  else none

/-- `legacy_verify`: the challenge is re-rendered with
`expires = int(time.time()) + NONCE_TTL` evaluated at verify time. -/
def legacy_verify (recover : Recover) (address nonce : List Char)
    (sig now : Nat) (st : NonceMap) : AuthOutcome × NonceMap :=
  verifyTail recover (lowerStr address) (render_message address nonce (now + NONCE_TTL))
    nonce sig now st

/-- `siwe_verify`: message-based branch parses the submitted message and
verifies the signature against the submitted bytes; the fallback branch
behaves like `legacy_verify`.  The `Expires` value parsed from the message
is discarded (third component of the parse result is unused). -/
def siwe_verify (recover : Recover) (message : Option (List Char))
    (address nonce : Option (List Char)) (sig now : Nat) (st : NonceMap) :
    AuthOutcome × NonceMap :=
  match message with
  | some msg =>
    match parse_prepared_message msg with
    | (some parsedAddr, some parsedNonce, _) =>
      verifyTail recover parsedAddr msg parsedNonce sig now st
    | _ => (AuthOutcome.err 400, st)
  | none =>
    match address, nonce with
    | some addr, some n =>
      verifyTail recover (lowerStr addr) (render_message addr n (now + NONCE_TTL))
        n sig now st
    | _, _ => (AuthOutcome.err 422, st)

/-! ### The in-memory `NonceStore` of `swie_auth/siwe_store.py`

`validate_and_consume` executes two store accesses:
`ts = self._data.get(nonce)` followed (after the TTL comparison) by
`self._data.pop(nonce, None)`.  The two accesses are modelled as separate
atomic steps so that interleavings of concurrent calls can be expressed;
their sequential composition is `validate_and_consume` itself. -/

def VcStore : Type := String → Option Nat

/-- Step 1: `ts = self._data.get(nonce)`. -/
def vcRead (st : VcStore) (nonce : String) : Option Nat := st nonce

/-- `self._data.pop(nonce, None)`. -/
def vcPop (nonce : String) (st : VcStore) : VcStore :=
  fun k => if k = nonce then none else st k

/-- Step 2: the TTL comparison, the pop, and the returned Bool. -/
def vcFinish (ttl : Nat) (nonce : String) (ts : Option Nat) (now : Nat)
    (st : VcStore) : Bool × VcStore :=
  match ts with
  | none => (false, st)
  | some t => if ttl < now - t then (false, vcPop nonce st) else (true, vcPop nonce st)

/-- `NonceStore.validate_and_consume`, run without interleaving. -/
def validate_and_consume (ttl : Nat) (nonce : String) (now : Nat) (st : VcStore) :
    Bool × VcStore :=
  vcFinish ttl nonce (vcRead st nonce) now st

/-! ### Profile store (`services/user_service.py`)

The content-addressed blob store is modelled from the spec's collaborator
contract (`put(bytes) -> CID`, `get(CID) -> bytes`, `pin(CID)`): blobs are
immutable, `put` returns a fresh CID (`nextCid`), and JSON
serialization/deserialization of a profile dict (including the
`isoformat`/`fromisoformat` timestamp round-trip) is exact, so blobs store
the profile record itself.  `user_cache` is the mutable
`wallet_address → cid` pointer map.  Pinning (`pinata_service.pin_by_cid`)
never raises — it catches all exceptions and returns a Bool that
`save_profile` discards — so a pin attempt is modelled by a `pinOk` oracle
that only affects the `pinned` component of the state. -/

structure Profile where
  wallet_address : List Char
  username : List Char
  bio : List Char
  avatar_cid : List Char
  documents_cid : List Char
  created_at : Nat
  updated_at : Nat
  following : List (List Char)
  followers : List (List Char)
deriving DecidableEq

structure Store where
  blobs : Nat → Option Profile
  cache : List Char → Option Nat
  pinned : Nat → Bool
  nextCid : Nat

/-- Store sanity: blobs live only below `nextCid`, the pointer map points
below `nextCid`, and a pointed-to blob records the identity it is filed
under (every write goes through `save_profile`, which keys the pointer by
`profile.wallet_address`). -/
def StoreInv (s : Store) : Prop :=
  (∀ c, s.nextCid ≤ c → s.blobs c = none) ∧
  (∀ a c, s.cache a = some c → c < s.nextCid) ∧
  (∀ a c p, s.cache a = some c → s.blobs c = some p → p.wallet_address = a)

/-- `ipfs_service.add_json`: write an immutable blob, obtain its CID. -/
def putBlob (p : Profile) (s : Store) : Nat × Store :=
  (s.nextCid,
   { s with
      blobs := fun c => if c = s.nextCid then some p else s.blobs c,
      nextCid := s.nextCid + 1 })

/-- `pinata_service.pin_by_cid`: best-effort; failure (`pinOk = false`)
only means the CID is not recorded as pinned. -/
def pinCid (pinOk : Bool) (cid : Nat) (s : Store) : Store :=
  if pinOk then { s with pinned := fun c => if c = cid then true else s.pinned c }
  else s

/-- `UserService.save_profile`: stamp `updated_at = now`, write the blob,
pin best-effort, repoint the `wallet_address → cid` cache entry. -/
def save_profile (pinOk : Bool) (p : Profile) (now : Nat) (s : Store) :
    Option Nat × Store :=
  let p' := { p with updated_at := now }
  let r := putBlob p' s
  let s2 := pinCid pinOk r.1 r.2
  (some r.1,
   { s2 with cache := fun a => if a = p.wallet_address then some r.1 else s2.cache a })

/-- The default profile built by `get_or_create_profile`. -/
def defaultProfile (a : List Char) (now : Nat) : Profile :=
  { wallet_address := a,
    username := "user_".toList ++ a.take 8,
    bio := "New Eco-DMS user 🌱".toList,
    avatar_cid := [],
    documents_cid := [],
    created_at := now,
    updated_at := now,
    following := [],
    followers := [] }

/-- `UserService.get_or_create_profile`: cached pointer with a live blob
is returned as-is; otherwise (no pointer, or the pointed-to blob fetches
nothing) a fresh default profile is built and saved. -/
def get_or_create_profile (pinOk : Bool) (a : List Char) (now : Nat) (s : Store) :
    (Profile × Option Nat) × Store :=
  match s.cache a with
  | some cid =>
    match s.blobs cid with
    | some p => ((p, some cid), s)
    | none =>
      let p := defaultProfile a now
      let r := save_profile pinOk p now s
      ((p, r.1), r.2)
  | none =>
    let p := defaultProfile a now
    let r := save_profile pinOk p now s
    ((p, r.1), r.2)

/-- `UserService.get_profile`: cache miss or dead blob yields `none`. -/
def get_profile (a : List Char) (s : Store) : Option Profile :=
  match s.cache a with
  | none => none
  | some cid => s.blobs cid

/-- `UserService.follow_user` (service level, no self-check): get or
create both profiles, then append-and-save each side unless already
present. -/
def follow_user (pinOk : Bool) (A B : List Char) (now : Nat) (s : Store) :
    Bool × Store :=
  let r1 := get_or_create_profile pinOk A now s
  let pA := r1.1.1
  let r2 := get_or_create_profile pinOk B now r1.2
  let pB := r2.1.1
  let s3 := if B ∈ pA.following then r2.2
            else (save_profile pinOk { pA with following := pA.following ++ [B] } now r2.2).2
  let s4 := if A ∈ pB.followers then s3
            else (save_profile pinOk { pB with followers := pB.followers ++ [A] } now s3).2
  (true, s4)

/-- `UserService.unfollow_user`: both profiles are read first; a missing
profile aborts; `list.remove` is `List.erase`. -/
def unfollow_user (pinOk : Bool) (A B : List Char) (now : Nat) (s : Store) :
    Bool × Store :=
  match get_profile A s, get_profile B s with
  | some pA, some pB =>
    let s3 := if B ∈ pA.following then
        (save_profile pinOk { pA with following := pA.following.erase B } now s).2
      else s
    let s4 := if A ∈ pB.followers then
        (save_profile pinOk { pB with followers := pB.followers.erase A } now s3).2
      else s3
    (true, s4)
  | _, _ => (false, s)

/-- `UserService.get_followers` (creates the profile when absent). -/
def get_followers (pinOk : Bool) (a : List Char) (now : Nat) (s : Store) :
    List (List Char) × Store :=
  match get_profile a s with
  | some p => (p.followers, s)
  | none =>
    let r := get_or_create_profile pinOk a now s
    (r.1.1.followers, r.2)

/-- `UserService.get_following` (creates the profile when absent). -/
def get_following (pinOk : Bool) (a : List Char) (now : Nat) (s : Store) :
    List (List Char) × Store :=
  match get_profile a s with
  | some p => (p.following, s)
  | none =>
    let r := get_or_create_profile pinOk a now s
    (r.1.1.following, r.2)

inductive FollowResult where
  | ok
  | errSelfFollow
deriving DecidableEq

/-- The `POST /api/users/follow/{wallet_address}` route: rejects
self-follow (HTTP 400 "Cannot follow yourself") before touching any
state, otherwise calls the service with the lowercased target. -/
def route_follow (pinOk : Bool) (current wallet : List Char) (now : Nat) (s : Store) :
    FollowResult × Store :=
  if lowerStr wallet = lowerStr current then (FollowResult.errSelfFollow, s)
  else (FollowResult.ok, (follow_user pinOk current (lowerStr wallet) now s).2)

/-- The `DELETE /api/users/follow/{wallet_address}` route. -/
def route_unfollow (pinOk : Bool) (current wallet : List Char) (now : Nat) (s : Store) :
    Store :=
  (unfollow_user pinOk current (lowerStr wallet) now s).2

/-- The deduplicating append performed by `follow_user` on each list. -/
def addIfAbsent (x : List Char) (l : List (List Char)) : List (List Char) :=
  if x ∈ l then l else l ++ [x]

/-! ### Pointwise behaviour of `save_profile` -/

theorem save_profile_fst (pk : Bool) (p : Profile) (now : Nat) (s : Store) :
    (save_profile pk p now s).1 = some s.nextCid := by
  cases pk <;> rfl

theorem save_profile_cache (pk : Bool) (p : Profile) (now : Nat) (s : Store)
    (a : List Char) :
    ((save_profile pk p now s).2).cache a
      = if a = p.wallet_address then some s.nextCid else s.cache a := by
  cases pk <;> rfl

theorem save_profile_blobs (pk : Bool) (p : Profile) (now : Nat) (s : Store) (c : Nat) :
    ((save_profile pk p now s).2).blobs c
      = if c = s.nextCid then some { p with updated_at := now } else s.blobs c := by
  cases pk <;> rfl

theorem save_profile_next (pk : Bool) (p : Profile) (now : Nat) (s : Store) :
    ((save_profile pk p now s).2).nextCid = s.nextCid + 1 := by
  cases pk <;> rfl

theorem inv_save {s : Store} (hinv : StoreInv s) (pk : Bool) (p : Profile) (now : Nat) :
    StoreInv (save_profile pk p now s).2 := by
  obtain ⟨h1, h2, h3⟩ := hinv
  refine ⟨?_, ?_, ?_⟩
  · intro c hc
    rw [save_profile_next] at hc
    rw [save_profile_blobs, if_neg (by omega)]
    exact h1 c (by omega)
  · intro a c hca
    rw [save_profile_cache] at hca
    rw [save_profile_next]
    by_cases ha : a = p.wallet_address
    · rw [if_pos ha] at hca
      have : s.nextCid = c := by simpa using hca
      omega
    · rw [if_neg ha] at hca
      have := h2 a c hca
      omega
  · intro a c q hca hbc
    rw [save_profile_cache] at hca
    rw [save_profile_blobs] at hbc
    by_cases ha : a = p.wallet_address
    · rw [if_pos ha] at hca
      have hc : s.nextCid = c := by simpa using hca
      rw [if_pos hc.symm] at hbc
      have : { p with updated_at := now } = q := by simpa using hbc
      rw [← this, ha]
    · rw [if_neg ha] at hca
      have hlt : c < s.nextCid := h2 a c hca
      rw [if_neg (by omega)] at hbc
      exact h3 a c q hca hbc

/-! ### Pointwise behaviour of `get_or_create_profile` -/

theorem goc_hit {s : Store} {a : List Char} {cid : Nat} {p : Profile}
    (pk : Bool) (now : Nat) (hc : s.cache a = some cid) (hb : s.blobs cid = some p) :
    get_or_create_profile pk a now s = ((p, some cid), s) := by
  simp only [get_or_create_profile, hc, hb]

theorem goc_miss_none {s : Store} {a : List Char} (pk : Bool) (now : Nat)
    (hc : s.cache a = none) :
    get_or_create_profile pk a now s
      = ((defaultProfile a now, (save_profile pk (defaultProfile a now) now s).1),
         (save_profile pk (defaultProfile a now) now s).2) := by
  unfold get_or_create_profile
  rw [hc]

theorem goc_miss_dead {s : Store} {a : List Char} {cid : Nat} (pk : Bool) (now : Nat)
    (hc : s.cache a = some cid) (hb : s.blobs cid = none) :
    get_or_create_profile pk a now s
      = ((defaultProfile a now, (save_profile pk (defaultProfile a now) now s).1),
         (save_profile pk (defaultProfile a now) now s).2) := by
  simp only [get_or_create_profile, hc, hb]

theorem default_stamp (a : List Char) (now : Nat) :
    { defaultProfile a now with updated_at := now } = defaultProfile a now := rfl

theorem goc_fst_wallet {s : Store} (pk : Bool) (a : List Char) (now : Nat)
    (hinv : StoreInv s) :
    ((get_or_create_profile pk a now s).1.1).wallet_address = a := by
  cases hc : s.cache a with
  | none => rw [goc_miss_none pk now hc]; rfl
  | some cid =>
    cases hb : s.blobs cid with
    | none => rw [goc_miss_dead pk now hc hb]; rfl
    | some p =>
      rw [goc_hit pk now hc hb]
      exact hinv.2.2 a cid p hc hb

theorem goc_resolves {s : Store} (pk : Bool) (a : List Char) (now : Nat)
    (hinv : StoreInv s) :
    ∃ c, ((get_or_create_profile pk a now s).2).cache a = some c ∧
      ((get_or_create_profile pk a now s).2).blobs c
        = some ((get_or_create_profile pk a now s).1.1) ∧
      c < ((get_or_create_profile pk a now s).2).nextCid := by
  have hw : (defaultProfile a now).wallet_address = a := rfl
  cases hc : s.cache a with
  | none =>
    rw [goc_miss_none pk now hc]
    refine ⟨s.nextCid, ?_, ?_, ?_⟩
    · rw [save_profile_cache, hw, if_pos rfl]
    · rw [save_profile_blobs, if_pos rfl, default_stamp]
    · rw [save_profile_next]; omega
  | some cid =>
    cases hb : s.blobs cid with
    | none =>
      rw [goc_miss_dead pk now hc hb]
      refine ⟨s.nextCid, ?_, ?_, ?_⟩
      · rw [save_profile_cache, hw, if_pos rfl]
      · rw [save_profile_blobs, if_pos rfl, default_stamp]
      · rw [save_profile_next]; omega
    | some p =>
      rw [goc_hit pk now hc hb]
      exact ⟨cid, hc, hb, hinv.2.1 a cid hc⟩

theorem goc_cache_other {s : Store} (pk : Bool) (a : List Char) (now : Nat)
    {b : List Char} (hne : b ≠ a) :
    ((get_or_create_profile pk a now s).2).cache b = s.cache b := by
  have hw : (defaultProfile a now).wallet_address = a := rfl
  cases hc : s.cache a with
  | none =>
    rw [goc_miss_none pk now hc, save_profile_cache, hw, if_neg hne]
  | some cid =>
    cases hb : s.blobs cid with
    | none => rw [goc_miss_dead pk now hc hb, save_profile_cache, hw, if_neg hne]
    | some p => rw [goc_hit pk now hc hb]

theorem goc_blobs_lt {s : Store} (pk : Bool) (a : List Char) (now : Nat)
    {c : Nat} (hlt : c < s.nextCid) :
    ((get_or_create_profile pk a now s).2).blobs c = s.blobs c := by
  cases hc : s.cache a with
  | none =>
    rw [goc_miss_none pk now hc, save_profile_blobs, if_neg (by omega)]
  | some cid =>
    cases hb : s.blobs cid with
    | none => rw [goc_miss_dead pk now hc hb, save_profile_blobs, if_neg (by omega)]
    | some p => rw [goc_hit pk now hc hb]

theorem goc_next_ge {s : Store} (pk : Bool) (a : List Char) (now : Nat) :
    s.nextCid ≤ ((get_or_create_profile pk a now s).2).nextCid := by
  cases hc : s.cache a with
  | none => rw [goc_miss_none pk now hc, save_profile_next]; omega
  | some cid =>
    cases hb : s.blobs cid with
    | none => rw [goc_miss_dead pk now hc hb, save_profile_next]; omega
    | some p => rw [goc_hit pk now hc hb]

theorem inv_goc {s : Store} (pk : Bool) (a : List Char) (now : Nat)
    (hinv : StoreInv s) :
    StoreInv ((get_or_create_profile pk a now s).2) := by
  cases hc : s.cache a with
  | none => rw [goc_miss_none pk now hc]; exact inv_save hinv pk _ now
  | some cid =>
    cases hb : s.blobs cid with
    | none => rw [goc_miss_dead pk now hc hb]; exact inv_save hinv pk _ now
    | some p => rw [goc_hit pk now hc hb]; exact hinv

theorem get_profile_eq {s : Store} {a : List Char} {c : Nat}
    (hc : s.cache a = some c) : get_profile a s = s.blobs c := by
  unfold get_profile
  rw [hc]

/-! ### Effect of `follow_user` / `unfollow_user` on the two profiles -/

theorem follow_post (pk : Bool) (A B : List Char) (now : Nat) (s : Store)
    (hab : A ≠ B) (hinv : StoreInv s) :
    ∃ pAf pBf,
      get_profile A (follow_user pk A B now s).2 = some pAf ∧
      get_profile B (follow_user pk A B now s).2 = some pBf ∧
      pAf.following
        = addIfAbsent B ((get_or_create_profile pk A now s).1.1).following ∧
      pBf.followers
        = addIfAbsent A
            ((get_or_create_profile pk B now
              (get_or_create_profile pk A now s).2).1.1).followers ∧
      StoreInv (follow_user pk A B now s).2 := by
  have hba : B ≠ A := fun h => hab h.symm
  simp only [follow_user]
  have hinv1 : StoreInv ((get_or_create_profile pk A now s).2) := inv_goc pk A now hinv
  have hinv2 : StoreInv ((get_or_create_profile pk B now
      (get_or_create_profile pk A now s).2).2) := inv_goc pk B now hinv1
  obtain ⟨cA, hcA, hbA, hltA⟩ := goc_resolves pk A now hinv
  obtain ⟨cB, hcB, hbB, hltB⟩ := goc_resolves pk B now hinv1
  have hwA : ((get_or_create_profile pk A now s).1.1).wallet_address = A :=
    goc_fst_wallet pk A now hinv
  have hwB : ((get_or_create_profile pk B now
      (get_or_create_profile pk A now s).2).1.1).wallet_address = B :=
    goc_fst_wallet pk B now hinv1
  have hcA2 : ((get_or_create_profile pk B now
      (get_or_create_profile pk A now s).2).2).cache A = some cA := by
    rw [goc_cache_other pk B now hab]
    exact hcA
  have hbA2 : ((get_or_create_profile pk B now
      (get_or_create_profile pk A now s).2).2).blobs cA
        = some ((get_or_create_profile pk A now s).1.1) := by
    rw [goc_blobs_lt pk B now hltA]
    exact hbA
  have hltA2 : cA < ((get_or_create_profile pk B now
      (get_or_create_profile pk A now s).2).2).nextCid :=
    lt_of_lt_of_le hltA (goc_next_ge pk B now)
  set r1 := get_or_create_profile pk A now s with hr1
  set pA := r1.1.1 with hpA
  set s1 := r1.2 with hs1
  set r2 := get_or_create_profile pk B now s1 with hr2
  set pB := r2.1.1 with hpB
  set s2 := r2.2 with hs2
  by_cases h1 : B ∈ pA.following
  · rw [if_pos h1]
    by_cases h2 : A ∈ pB.followers
    · rw [if_pos h2]
      refine ⟨pA, pB, ?_, ?_, ?_, ?_, hinv2⟩
      · rw [get_profile_eq hcA2, hbA2]
      · rw [get_profile_eq hcB, hbB]
      · rw [addIfAbsent, if_pos h1]
      · rw [addIfAbsent, if_pos h2]
    · rw [if_neg h2]
      set pB' : Profile := { pB with followers := pB.followers ++ [A] } with hpB'
      have hwB' : pB'.wallet_address = B := hwB
      refine ⟨pA, { pB' with updated_at := now }, ?_, ?_, ?_, ?_, ?_⟩
      · have hc : ((save_profile pk pB' now s2).2).cache A = some cA := by
          rw [save_profile_cache, hwB', if_neg hab, hcA2]
        rw [get_profile_eq hc, save_profile_blobs, if_neg (by omega), hbA2]
      · have hc : ((save_profile pk pB' now s2).2).cache B = some s2.nextCid := by
          rw [save_profile_cache, hwB', if_pos rfl]
        rw [get_profile_eq hc, save_profile_blobs, if_pos rfl]
      · rw [addIfAbsent, if_pos h1]
      · rw [addIfAbsent, if_neg h2]
      · exact inv_save hinv2 pk pB' now
  · rw [if_neg h1]
    set pA' : Profile := { pA with following := pA.following ++ [B] } with hpA'
    have hwA' : pA'.wallet_address = A := hwA
    set s3 := (save_profile pk pA' now s2).2 with hs3
    have hcA3 : s3.cache A = some s2.nextCid := by
      rw [hs3, save_profile_cache, hwA', if_pos rfl]
    have hbA3 : s3.blobs s2.nextCid = some { pA' with updated_at := now } := by
      rw [hs3, save_profile_blobs, if_pos rfl]
    have hcB3 : s3.cache B = some cB := by
      rw [hs3, save_profile_cache, hwA', if_neg hba, hcB]
    have hbB3 : s3.blobs cB = some pB := by
      rw [hs3, save_profile_blobs, if_neg (by omega), hbB]
    have hnext3 : s3.nextCid = s2.nextCid + 1 := by
      rw [hs3, save_profile_next]
    have hinv3 : StoreInv s3 := inv_save hinv2 pk pA' now
    by_cases h2 : A ∈ pB.followers
    · rw [if_pos h2]
      refine ⟨{ pA' with updated_at := now }, pB, ?_, ?_, ?_, ?_, hinv3⟩
      · rw [get_profile_eq hcA3, hbA3]
      · rw [get_profile_eq hcB3, hbB3]
      · rw [addIfAbsent, if_neg h1]
      · rw [addIfAbsent, if_pos h2]
    · rw [if_neg h2]
      set pB' : Profile := { pB with followers := pB.followers ++ [A] } with hpB'
      have hwB' : pB'.wallet_address = B := hwB
      refine ⟨{ pA' with updated_at := now }, { pB' with updated_at := now },
        ?_, ?_, ?_, ?_, ?_⟩
      · have hc : ((save_profile pk pB' now s3).2).cache A = some s2.nextCid := by
          rw [save_profile_cache, hwB', if_neg hab, hcA3]
        rw [get_profile_eq hc, save_profile_blobs, if_neg (by omega), hbA3]
      · have hc : ((save_profile pk pB' now s3).2).cache B = some s3.nextCid := by
          rw [save_profile_cache, hwB', if_pos rfl]
        rw [get_profile_eq hc, save_profile_blobs, if_pos rfl]
      · rw [addIfAbsent, if_neg h1]
      · rw [addIfAbsent, if_neg h2]
      · exact inv_save hinv3 pk pB' now

theorem unfollow_post (pk : Bool) (A B : List Char) (now : Nat) (s : Store)
    (pA pB : Profile) (hab : A ≠ B) (hinv : StoreInv s)
    (hA : get_profile A s = some pA) (hB : get_profile B s = some pB)
    (hBA : B ∈ pA.following) (hAB : A ∈ pB.followers) :
    ∃ pAf pBf,
      get_profile A (unfollow_user pk A B now s).2 = some pAf ∧
      get_profile B (unfollow_user pk A B now s).2 = some pBf ∧
      pAf.following = pA.following.erase B ∧
      pBf.followers = pB.followers.erase A ∧
      StoreInv (unfollow_user pk A B now s).2 := by
  have hba : B ≠ A := fun h => hab h.symm
  obtain ⟨cA, hcA⟩ : ∃ c, s.cache A = some c := by
    unfold get_profile at hA
    cases hc : s.cache A with
    | none => rw [hc] at hA; exact absurd hA (by simp)
    | some c => exact ⟨c, rfl⟩
  have hbA : s.blobs cA = some pA := by
    rw [get_profile_eq hcA] at hA
    exact hA
  obtain ⟨cB, hcB⟩ : ∃ c, s.cache B = some c := by
    unfold get_profile at hB
    cases hc : s.cache B with
    | none => rw [hc] at hB; exact absurd hB (by simp)
    | some c => exact ⟨c, rfl⟩
  have hbB : s.blobs cB = some pB := by
    rw [get_profile_eq hcB] at hB
    exact hB
  have hwA : pA.wallet_address = A := hinv.2.2 A cA pA hcA hbA
  have hwB : pB.wallet_address = B := hinv.2.2 B cB pB hcB hbB
  have hltA : cA < s.nextCid := hinv.2.1 A cA hcA
  have hltB : cB < s.nextCid := hinv.2.1 B cB hcB
  simp only [unfollow_user, hA, hB]
  rw [if_pos hBA, if_pos hAB]
  set pA' : Profile := { pA with following := pA.following.erase B } with hpA'
  have hwA' : pA'.wallet_address = A := hwA
  set s3 := (save_profile pk pA' now s).2 with hs3
  have hcA3 : s3.cache A = some s.nextCid := by
    rw [hs3, save_profile_cache, hwA', if_pos rfl]
  have hbA3 : s3.blobs s.nextCid = some { pA' with updated_at := now } := by
    rw [hs3, save_profile_blobs, if_pos rfl]
  have hcB3 : s3.cache B = some cB := by
    rw [hs3, save_profile_cache, hwA', if_neg hba, hcB]
  have hbB3 : s3.blobs cB = some pB := by
    rw [hs3, save_profile_blobs, if_neg (by omega), hbB]
  have hnext3 : s3.nextCid = s.nextCid + 1 := by
    rw [hs3, save_profile_next]
  have hinv3 : StoreInv s3 := inv_save hinv pk pA' now
  set pB' : Profile := { pB with followers := pB.followers.erase A } with hpB'
  have hwB' : pB'.wallet_address = B := hwB
  refine ⟨{ pA' with updated_at := now }, { pB' with updated_at := now },
    ?_, ?_, rfl, rfl, ?_⟩
  · have hc : ((save_profile pk pB' now s3).2).cache A = some s.nextCid := by
      rw [save_profile_cache, hwB', if_neg hab, hcA3]
    rw [get_profile_eq hc, save_profile_blobs, if_neg (by omega), hbA3]
  · have hc : ((save_profile pk pB' now s3).2).cache B = some s3.nextCid := by
      rw [save_profile_cache, hwB', if_pos rfl]
    rw [get_profile_eq hc, save_profile_blobs, if_pos rfl]
  · exact inv_save hinv3 pk pB' now

/-! ### Failure of the matchers on colon-free input -/

theorem matchAddrAt_some_colon {s r : List Char} (h : matchAddrAt s = some r) :
    ':' ∈ s := by
  cases hs : stripLabel addrLabel s with
  | none => rw [matchAddrAt, hs] at h; exact absurd h (by simp)
  | some r0 => exact stripLabel_mem hs ':' (by decide)

theorem matchNonceAt_some_colon {s r : List Char} (h : matchNonceAt s = some r) :
    ':' ∈ s := by
  cases hs : stripLabel nonceLabel s with
  | none => rw [matchNonceAt, hs] at h; exact absurd h (by simp)
  | some r0 => exact stripLabel_mem hs ':' (by decide)

theorem matchExpAt_some_colon {s r : List Char} (h : matchExpAt s = some r) :
    ':' ∈ s := by
  cases hs : stripLabel expLabel s with
  | none => rw [matchExpAt, hs] at h; exact absurd h (by simp)
  | some r0 => exact stripLabel_mem hs ':' (by decide)

theorem search_none_of_no_colon {m : List Char → Option (List Char)}
    (hm : ∀ s r, m s = some r → ':' ∈ s) {s : List Char} (h : ':' ∉ s) :
    searchWith m s = none := by
  cases hr : searchWith m s with
  | none => rfl
  | some r => exact absurd (searchWith_some_mem hm hr) h

/-! ### Claim theorems -/

def hexA : List Char := List.replicate 40 'a'

/-- Claim C1 inputs: nonce issued at epoch 1000 (Redis key expiry 1300),
message prepared at epoch 1000, a signature (opaque id 7) that recovers
the claimed address exactly on the prepared bytes, verification at
epoch 1001. -/
def c1Store : NonceMap := fun k => if k = ['a', 'b', 'c'] then some 1300 else none

def c1Msg : List Char :=
  render_message ('0' :: 'x' :: hexA) ['a', 'b', 'c'] (1000 + NONCE_TTL)

def c1Recover : Recover := fun msg sig =>
  if sig = 7 ∧ msg = c1Msg then some ('0' :: 'x' :: hexA) else none

/-- Claim C1: a run that issues a nonce, prepares a message at epoch 1000,
signs exactly those bytes, and verifies at epoch 1001 while the nonce is
still stored, is rejected with 401 — `legacy_verify` regenerates the
challenge with `Expires = verify-time + NONCE_TTL`, which differs from the
prepared message as soon as one second has elapsed, so the two paths do
not agree bit-for-bit and the signature check fails. -/
theorem c1_prepare_sign_verify_fails_after_one_second :
    legacy_prepare ('0' :: 'x' :: hexA) ['a', 'b', 'c'] 1000 c1Store = some c1Msg ∧
    verify_sig c1Recover (lowerStr ('0' :: 'x' :: hexA)) c1Msg 7 = true ∧
    (legacy_verify c1Recover ('0' :: 'x' :: hexA) ['a', 'b', 'c'] 7 1001 c1Store).1
      = AuthOutcome.err 401 ∧
    render_message ('0' :: 'x' :: hexA) ['a', 'b', 'c'] (1001 + NONCE_TTL) ≠ c1Msg := by
  decide

/-- Claim C2 store: one nonce `"n"` issued at time 5; both calls run at
time 6 with TTL 300. -/
def c2Store : VcStore := fun k => if k = "n" then some 5 else none

/-- Claim C2: `validate_and_consume` is the non-atomic composition of a
dict read (`vcRead`) and a check-and-pop (`vcFinish`).  In the
interleaving where both calls read before either pops, both calls return
`true` — the nonce is observed valid twice — while the sequential
composition consumes the nonce so that a second sequential call fails. -/
theorem c2_interleaved_double_consume :
    (vcFinish 300 "n" (vcRead c2Store "n") 6 c2Store).1 = true ∧
    (vcFinish 300 "n" (vcRead c2Store "n") 6
      (vcFinish 300 "n" (vcRead c2Store "n") 6 c2Store).2).1 = true ∧
    (validate_and_consume 300 "n" 6 c2Store).1 = true ∧
    (validate_and_consume 300 "n" 6
      (validate_and_consume 300 "n" 6 c2Store).2).1 = false := by
  decide

/-- Claim C3: for every valid address (`0x` + 40 hex chars), nonempty
alphanumeric nonce, and integer expiry, parsing the rendered challenge
reproduces exactly (address lowercased, nonce, expiry). -/
theorem c3_parse_render_roundtrip (h nonce : List Char) (e : Nat)
    (hlen : h.length = 40) (hhex : ∀ c ∈ h, c ∈ hexChars)
    (hn0 : nonce ≠ []) (hna : ∀ c ∈ nonce, c ∈ alnumChars) :
    parse_prepared_message (render_message ('0' :: 'x' :: h) nonce e)
      = (some (lowerStr ('0' :: 'x' :: h)), some nonce, some e) :=
  parse_render_eq h nonce e hlen hhex hn0 hna

theorem c3_witness :
    (hexA.length = 40 ∧ (∀ c ∈ hexA, c ∈ hexChars) ∧
      (['a', 'b', 'c'] : List Char) ≠ [] ∧
      (∀ c ∈ (['a', 'b', 'c'] : List Char), c ∈ alnumChars)) ∧
    parse_prepared_message (render_message ('0' :: 'x' :: hexA) ['a', 'b', 'c'] 1300)
      = (some (lowerStr ('0' :: 'x' :: hexA)), some ['a', 'b', 'c'], some 1300) :=
  ⟨⟨by decide, by decide, by decide, by decide⟩,
   c3_parse_render_roundtrip hexA ['a', 'b', 'c'] 1300
     (by decide) (by decide) (by decide) (by decide)⟩

/-- Claim C4: a credential minted at `t` with `exp = t + SESSION_TTL`
validates to the original subject strictly before `exp` and fails as
expired at or after `exp`. -/
theorem c4_token_validity (sub : List Char) (t tv : Nat) :
    (tv < t + SESSION_TTL → validateToken (mintToken sub t) tv = TokenResult.ok sub) ∧
    (t + SESSION_TTL ≤ tv → validateToken (mintToken sub t) tv = TokenResult.expired) := by
  constructor
  · intro hlt
    unfold validateToken
    rw [if_pos (show (mintToken sub t).key = JWT_SECRET_KEY from rfl),
      show (mintToken sub t).exp = t + SESSION_TTL from rfl, if_neg (by omega)]
    rfl
  · intro hge
    unfold validateToken
    rw [if_pos (show (mintToken sub t).key = JWT_SECRET_KEY from rfl),
      show (mintToken sub t).exp = t + SESSION_TTL from rfl, if_pos hge]

theorem c4_witness :
    (10 < 0 + SESSION_TTL ∧
      validateToken (mintToken ['a'] 0) 10 = TokenResult.ok ['a']) ∧
    (0 + SESSION_TTL ≤ 3600 ∧
      validateToken (mintToken ['a'] 0) 3600 = TokenResult.expired) :=
  ⟨⟨by decide, (c4_token_validity ['a'] 0 10).1 (by decide)⟩,
   ⟨by decide, (c4_token_validity ['a'] 0 3600).2 (by decide)⟩⟩

/-- Claim C5 counterexample input: a string that no `render_message`
output equals (it does not start with the fixed header), yet from which
the parser recovers an address and a nonce (with `Expires` missing). -/
def c5Input : List Char :=
  'A' :: 'd' :: 'd' :: 'r' :: 'e' :: 's' :: 's' :: ':' :: ' ' :: '0' :: 'x' ::
    (List.replicate 40 'a' ++
      (' ' :: 'N' :: 'o' :: 'n' :: 'c' :: 'e' :: ':' :: ' ' :: 'z' :: 'z' :: 'z' :: []))

/-- Claim C5 is falsified: `_parse_prepared_message` attempts partial
recovery.  On an input that is not produced by `render_message`, it
returns a recovered address and nonce instead of failing closed. -/
theorem c5_counterexample_partial_recovery :
    (∀ a n e, render_message a n e ≠ c5Input) ∧
    parse_prepared_message c5Input
      = (some ('0' :: 'x' :: List.replicate 40 'a'), some ['z', 'z', 'z'], none) := by
  constructor
  · intro a n e hEq
    have h1 : (render_message a n e).head? = some 'S' := rfl
    rw [hEq] at h1
    exact absurd h1 (by decide)
  · decide

/-- Claim C5 as amended: the parser searches for the three labelled
fields independently and may return a partial triple; it returns the
fully-unparsed result `(none, none, none)` when none of the labelled
patterns can occur — in particular on every input containing no colon. -/
theorem c5_no_colon_unparseable (s : List Char) (h : ':' ∉ s) :
    parse_prepared_message s = (none, none, none) := by
  unfold parse_prepared_message
  rw [search_none_of_no_colon (fun s r hm => matchAddrAt_some_colon hm) h,
    search_none_of_no_colon (fun s r hm => matchNonceAt_some_colon hm) h,
    search_none_of_no_colon (fun s r hm => matchExpAt_some_colon hm) h]
  rfl

theorem c5_witness :
    (':' ∉ (['h', 'e', 'l', 'l', 'o'] : List Char)) ∧
    parse_prepared_message ['h', 'e', 'l', 'l', 'o'] = (none, none, none) :=
  ⟨by decide, c5_no_colon_unparseable ['h', 'e', 'l', 'l', 'o'] (by decide)⟩

/-- Claim C7: `save_profile` stamps `updated_at = now` while preserving
`created_at`, the blob fetched by the returned CID is exactly the
serialized updated document, the `identity → CID` pointer is repointed to
the new CID, and the result, the blob map, and the pointer map do not
depend on whether the pin attempt succeeded. -/
theorem c7_save_profile_contract (pk : Bool) (p : Profile) (now : Nat) (s : Store) :
    (save_profile pk p now s).1 = some s.nextCid ∧
    ((save_profile pk p now s).2).blobs s.nextCid = some { p with updated_at := now } ∧
    ({ p with updated_at := now } : Profile).created_at = p.created_at ∧
    ({ p with updated_at := now } : Profile).updated_at = now ∧
    ((save_profile pk p now s).2).cache p.wallet_address = some s.nextCid ∧
    (save_profile true p now s).1 = (save_profile false p now s).1 ∧
    ((save_profile true p now s).2).blobs = ((save_profile false p now s).2).blobs ∧
    ((save_profile true p now s).2).cache = ((save_profile false p now s).2).cache := by
  refine ⟨save_profile_fst pk p now s, ?_, rfl, rfl, ?_, ?_, ?_, ?_⟩
  · rw [save_profile_blobs, if_pos rfl]
  · rw [save_profile_cache, if_pos rfl]
  · rw [save_profile_fst, save_profile_fst]
  · funext c
    rw [save_profile_blobs, save_profile_blobs]
  · funext a
    rw [save_profile_cache, save_profile_cache]

/-- Claim C8: when the signature check of `legacy_verify` fails, the
request is rejected with 401 and the nonce store is returned unchanged,
so a later call with the same nonce and a signature that verifies
succeeds. -/
theorem c8_bad_signature_preserves_nonce (recover : Recover)
    (address nonce : List Char) (sig sig2 now now2 : Nat) (st : NonceMap)
    (hlive : nonceLive st nonce now = true)
    (hbad : verify_sig recover (lowerStr address)
        (render_message address nonce (now + NONCE_TTL)) sig = false)
    (hlive2 : nonceLive st nonce now2 = true)
    (hgood : verify_sig recover (lowerStr address)
        (render_message address nonce (now2 + NONCE_TTL)) sig2 = true) :
    legacy_verify recover address nonce sig now st = (AuthOutcome.err 401, st) ∧
    (legacy_verify recover address nonce sig2 now2 st).1
      = AuthOutcome.ok (lowerStr address) (mintToken (lowerStr address) now2) := by
  constructor
  · unfold legacy_verify verifyTail
    rw [if_pos hlive, if_neg (by rw [hbad]; exact Bool.false_ne_true)]
  · unfold legacy_verify verifyTail
    rw [if_pos hlive2, if_pos hgood]

def c8Store : NonceMap := fun k => if k = ['a', 'b', 'c'] then some 1300 else none

def c8Msg2 : List Char :=
  render_message ('0' :: 'x' :: hexA) ['a', 'b', 'c'] (1002 + NONCE_TTL)

def c8Recover : Recover := fun msg sig =>
  if sig = 2 ∧ msg = c8Msg2 then some ('0' :: 'x' :: hexA) else none

theorem c8_witness :
    (nonceLive c8Store ['a', 'b', 'c'] 1001 = true ∧
      verify_sig c8Recover (lowerStr ('0' :: 'x' :: hexA))
        (render_message ('0' :: 'x' :: hexA) ['a', 'b', 'c'] (1001 + NONCE_TTL)) 1 = false ∧
      nonceLive c8Store ['a', 'b', 'c'] 1002 = true ∧
      verify_sig c8Recover (lowerStr ('0' :: 'x' :: hexA))
        (render_message ('0' :: 'x' :: hexA) ['a', 'b', 'c'] (1002 + NONCE_TTL)) 2 = true) ∧
    (legacy_verify c8Recover ('0' :: 'x' :: hexA) ['a', 'b', 'c'] 1 1001 c8Store
        = (AuthOutcome.err 401, c8Store) ∧
      (legacy_verify c8Recover ('0' :: 'x' :: hexA) ['a', 'b', 'c'] 2 1002 c8Store).1
        = AuthOutcome.ok (lowerStr ('0' :: 'x' :: hexA))
            (mintToken (lowerStr ('0' :: 'x' :: hexA)) 1002)) :=
  ⟨⟨by decide, by decide, by decide, by decide⟩,
   c8_bad_signature_preserves_nonce c8Recover ('0' :: 'x' :: hexA) ['a', 'b', 'c']
     1 2 1001 1002 c8Store (by decide) (by decide) (by decide) (by decide)⟩

/-- Claim C9: when the pointer cache holds a CID but the blob fetch
returns nothing, `get_or_create_profile` silently builds a brand-new
default profile (default username and bio, empty followers/following,
fresh timestamps), saves it, and repoints the mapping to the new CID. -/
theorem c9_dead_blob_recreates_default (pk : Bool) (a : List Char) (now : Nat)
    (s : Store) (cid : Nat) (hc : s.cache a = some cid) (hb : s.blobs cid = none) :
    get_or_create_profile pk a now s
      = ((defaultProfile a now, some s.nextCid),
         (save_profile pk (defaultProfile a now) now s).2) ∧
    ((get_or_create_profile pk a now s).2).cache a = some s.nextCid ∧
    ((get_or_create_profile pk a now s).2).blobs s.nextCid
      = some (defaultProfile a now) ∧
    (defaultProfile a now).username = "user_".toList ++ a.take 8 ∧
    (defaultProfile a now).bio = "New Eco-DMS user 🌱".toList ∧
    (defaultProfile a now).followers = [] ∧
    (defaultProfile a now).following = [] ∧
    (defaultProfile a now).created_at = now ∧
    (defaultProfile a now).updated_at = now := by
  have hmain := goc_miss_dead pk now hc hb
  have hw : (defaultProfile a now).wallet_address = a := rfl
  refine ⟨?_, ?_, ?_, rfl, rfl, rfl, rfl, rfl, rfl⟩
  · rw [hmain, save_profile_fst]
  · rw [hmain, save_profile_cache, hw, if_pos rfl]
  · rw [hmain, save_profile_blobs, if_pos rfl, default_stamp]

def c9Store : Store :=
  { blobs := fun _ => none,
    cache := fun k => if k = ['a'] then some 0 else none,
    pinned := fun _ => false,
    nextCid := 1 }

theorem c9_witness :
    (c9Store.cache ['a'] = some 0 ∧ c9Store.blobs 0 = none) ∧
    (get_or_create_profile false ['a'] 5 c9Store
      = ((defaultProfile ['a'] 5, some c9Store.nextCid),
         (save_profile false (defaultProfile ['a'] 5) 5 c9Store).2) ∧
    ((get_or_create_profile false ['a'] 5 c9Store).2).cache ['a']
      = some c9Store.nextCid ∧
    ((get_or_create_profile false ['a'] 5 c9Store).2).blobs c9Store.nextCid
      = some (defaultProfile ['a'] 5) ∧
    (defaultProfile ['a'] 5).username = "user_".toList ++ (['a'] : List Char).take 8 ∧
    (defaultProfile ['a'] 5).bio = "New Eco-DMS user 🌱".toList ∧
    (defaultProfile ['a'] 5).followers = [] ∧
    (defaultProfile ['a'] 5).following = [] ∧
    (defaultProfile ['a'] 5).created_at = 5 ∧
    (defaultProfile ['a'] 5).updated_at = 5) :=
  ⟨⟨by decide, by decide⟩,
   c9_dead_blob_recreates_default false ['a'] 5 c9Store 0 (by decide) (by decide)⟩

/-- Claim C10: in the message-based branch of `siwe_verify`, a message
whose embedded `Expires` timestamp lies strictly in the past still
verifies successfully — the parsed expiry is never compared to the
current time — provided the nonce key is still stored and the signature
matches the address parsed from the message. -/
theorem c10_expired_message_still_verifies (recover : Recover)
    (h nonce : List Char) (e now sig : Nat) (st : NonceMap)
    (hlen : h.length = 40) (hhex : ∀ c ∈ h, c ∈ hexChars)
    (hn0 : nonce ≠ []) (hna : ∀ c ∈ nonce, c ∈ alnumChars)
    (hpast : e < now)
    (hlive : nonceLive st nonce now = true)
    (hsig : verify_sig recover (lowerStr ('0' :: 'x' :: h))
        (render_message ('0' :: 'x' :: h) nonce e) sig = true) :
    siwe_verify recover (some (render_message ('0' :: 'x' :: h) nonce e))
        none none sig now st
      = (AuthOutcome.ok (lowerStr ('0' :: 'x' :: h))
          (mintToken (lowerStr ('0' :: 'x' :: h)) now),
         deleteNonce nonce st) := by
  have hp := parse_render_eq h nonce e hlen hhex hn0 hna
  simp only [siwe_verify, hp]
  unfold verifyTail
  rw [if_pos hlive, if_pos hsig]

def c10Store : NonceMap := fun k => if k = ['a', 'b', 'c'] then some 1300 else none

def c10Msg : List Char := render_message ('0' :: 'x' :: hexA) ['a', 'b', 'c'] 5

def c10Recover : Recover := fun msg sig =>
  if sig = 3 ∧ msg = c10Msg then some ('0' :: 'x' :: hexA) else none

theorem c10_witness :
    (hexA.length = 40 ∧ (∀ c ∈ hexA, c ∈ hexChars) ∧
      (['a', 'b', 'c'] : List Char) ≠ [] ∧
      (∀ c ∈ (['a', 'b', 'c'] : List Char), c ∈ alnumChars) ∧
      5 < 1001 ∧
      nonceLive c10Store ['a', 'b', 'c'] 1001 = true ∧
      verify_sig c10Recover (lowerStr ('0' :: 'x' :: hexA)) c10Msg 3 = true) ∧
    siwe_verify c10Recover (some c10Msg) none none 3 1001 c10Store
      = (AuthOutcome.ok (lowerStr ('0' :: 'x' :: hexA))
          (mintToken (lowerStr ('0' :: 'x' :: hexA)) 1001),
         deleteNonce ['a', 'b', 'c'] c10Store) :=
  ⟨⟨by decide, by decide, by decide, by decide, by decide, by decide, by decide⟩,
   c10_expired_message_still_verifies c10Recover hexA ['a', 'b', 'c'] 5 1001 3 c10Store
     (by decide) (by decide) (by decide) (by decide) (by decide) (by decide) (by decide)⟩

/-! ### Helpers for the social-graph claim -/

theorem mem_addIfAbsent_self (x : List Char) (l : List (List Char)) :
    x ∈ addIfAbsent x l := by
  by_cases hx : x ∈ l
  · rw [addIfAbsent, if_pos hx]
    exact hx
  · rw [addIfAbsent, if_neg hx]
    exact List.mem_append_right _ (by simp)

theorem nodup_addIfAbsent (x : List Char) {l : List (List Char)} (h : l.Nodup) :
    (addIfAbsent x l).Nodup := by
  by_cases hx : x ∈ l
  · rw [addIfAbsent, if_pos hx]
    exact h
  · rw [addIfAbsent, if_neg hx]
    refine List.Nodup.append h (List.nodup_singleton x) ?_
    intro a ha hb
    rw [List.mem_singleton] at hb
    subst hb
    exact hx ha

theorem get_followers_of_profile {s : Store} {a : List Char} {p : Profile}
    (pk : Bool) (now : Nat) (hg : get_profile a s = some p) :
    get_followers pk a now s = (p.followers, s) := by
  unfold get_followers
  rw [hg]

theorem get_following_of_profile {s : Store} {a : List Char} {p : Profile}
    (pk : Bool) (now : Nat) (hg : get_profile a s = some p) :
    get_following pk a now s = (p.following, s) := by
  unfold get_following
  rw [hg]

/-- Claim C6: for distinct lowercase identities `A ≠ B` (identities are
lowercase addresses; the stored lists of the two resolved profiles are
duplicate-free, per the profile-document invariant), following makes
`get_followers B` contain `A` and `get_following A` contain `B`; a
subsequent unfollow removes both entries; and a self-follow is rejected
by the route with HTTP 400 without modifying any state. -/
theorem c6_follow_unfollow_self (pk : Bool) (A B : List Char) (now now2 : Nat)
    (s : Store)
    (hA : lowerStr A = A) (hB : lowerStr B = B) (hab : A ≠ B) (hinv : StoreInv s)
    (hndA : ((get_or_create_profile pk A now s).1.1).following.Nodup)
    (hndB : ((get_or_create_profile pk B now
        (get_or_create_profile pk A now s).2).1.1).followers.Nodup) :
    (route_follow pk A B now s).1 = FollowResult.ok ∧
    A ∈ (get_followers pk B now (route_follow pk A B now s).2).1 ∧
    B ∈ (get_following pk A now (route_follow pk A B now s).2).1 ∧
    A ∉ (get_followers pk B now2
        (route_unfollow pk A B now2 (route_follow pk A B now s).2)).1 ∧
    B ∉ (get_following pk A now2
        (route_unfollow pk A B now2 (route_follow pk A B now s).2)).1 ∧
    route_follow pk A A now s = (FollowResult.errSelfFollow, s) := by
  have hba : B ≠ A := fun hh => hab hh.symm
  have hroute1 : (route_follow pk A B now s).1 = FollowResult.ok := by
    unfold route_follow
    rw [hA, hB, if_neg hba]
  have hroute2 : (route_follow pk A B now s).2 = (follow_user pk A B now s).2 := by
    unfold route_follow
    rw [hA, hB, if_neg hba]
  have hrunf : route_unfollow pk A B now2 ((follow_user pk A B now s).2)
      = (unfollow_user pk A B now2 ((follow_user pk A B now s).2)).2 := by
    unfold route_unfollow
    rw [hB]
  obtain ⟨pAf, pBf, hgA, hgB, hfolA, hfolB, hinv4⟩ := follow_post pk A B now s hab hinv
  have hmemB : B ∈ pAf.following := by
    rw [hfolA]
    exact mem_addIfAbsent_self B _
  have hmemA : A ∈ pBf.followers := by
    rw [hfolB]
    exact mem_addIfAbsent_self A _
  have hndAf : pAf.following.Nodup := by
    rw [hfolA]
    exact nodup_addIfAbsent B hndA
  have hndBf : pBf.followers.Nodup := by
    rw [hfolB]
    exact nodup_addIfAbsent A hndB
  obtain ⟨pAg, pBg, hgA2, hgB2, herA, herB, hinv6⟩ :=
    unfollow_post pk A B now2 ((follow_user pk A B now s).2) pAf pBf hab hinv4
      hgA hgB hmemB hmemA
  refine ⟨hroute1, ?_, ?_, ?_, ?_, ?_⟩
  · rw [hroute2, get_followers_of_profile pk now hgB]
    exact hmemA
  · rw [hroute2, get_following_of_profile pk now hgA]
    exact hmemB
  · rw [hroute2, hrunf, get_followers_of_profile pk now2 hgB2, herB]
    intro hmem
    exact ((hndBf.mem_erase_iff).mp hmem).1 rfl
  · rw [hroute2, hrunf, get_following_of_profile pk now2 hgA2, herA]
    intro hmem
    exact ((hndAf.mem_erase_iff).mp hmem).1 rfl
  · unfold route_follow
    rw [if_pos rfl]

def c6Store : Store :=
  { blobs := fun _ => none,
    cache := fun _ => none,
    pinned := fun _ => false,
    nextCid := 0 }

theorem c6Store_inv : StoreInv c6Store := by
  refine ⟨fun c _ => rfl, fun a c hc => ?_, fun a c p hc hb => ?_⟩
  · exact absurd hc (by simp [c6Store])
  · exact absurd hc (by simp [c6Store])

theorem c6_witness :
    (lowerStr ['a'] = ['a'] ∧ lowerStr ['b'] = ['b'] ∧
      (['a'] : List Char) ≠ ['b'] ∧ StoreInv c6Store ∧
      ((get_or_create_profile false ['a'] 1 c6Store).1.1).following.Nodup ∧
      ((get_or_create_profile false ['b'] 1
          (get_or_create_profile false ['a'] 1 c6Store).2).1.1).followers.Nodup) ∧
    ((route_follow false ['a'] ['b'] 1 c6Store).1 = FollowResult.ok ∧
      ['a'] ∈ (get_followers false ['b'] 1
          (route_follow false ['a'] ['b'] 1 c6Store).2).1 ∧
      ['b'] ∈ (get_following false ['a'] 1
          (route_follow false ['a'] ['b'] 1 c6Store).2).1 ∧
      ['a'] ∉ (get_followers false ['b'] 2
          (route_unfollow false ['a'] ['b'] 2
            (route_follow false ['a'] ['b'] 1 c6Store).2)).1 ∧
      ['b'] ∉ (get_following false ['a'] 2
          (route_unfollow false ['a'] ['b'] 2
            (route_follow false ['a'] ['b'] 1 c6Store).2)).1 ∧
      route_follow false ['a'] ['a'] 1 c6Store = (FollowResult.errSelfFollow, c6Store)) :=
  ⟨⟨by decide, by decide, by decide, c6Store_inv, by decide, by decide⟩,
   c6_follow_unfollow_self false ['a'] ['b'] 1 2 c6Store (by decide) (by decide)
     (by decide) c6Store_inv (by decide) (by decide)⟩
